import Mathlib

/-!
Formal model of the `json-schema-to-zod` compiler
(`src/Type.ts`: the `JSONSchema` record type and the `JSONSchemaToZod` class).

The compiler turns a JSON-Schema node into a zod validator.  We embed:

* the JSON value universe (`JSON`),
* the zod validator graphs the compiler constructs (`Zod`) together with
  their runtime acceptance semantics (`validate`), modelled on zod v3
  (`ZodString`/`ZodNumber`/`ZodObject`/`ZodUnion`/... `_parse`).  Two points
  of the zod runtime matter for the claims and are modelled faithfully:
  - `ZodObject._parse` gives a non-`never` `catchall` precedence over the
    `unknownKeys` policy: unknown keys are validated by the catchall and
    the accepted values are *included in the parsed output*; `.strip()`
    only sets the `unknownKeys` policy, which is consulted when no
    catchall is installed.
  - `ZodUnion._parse` returns the first branch that parses successfully.
* the schema node type (`Schema`) and every method of `JSONSchemaToZod`
  (`parseSchema`, `handleTypeArray`, `handleNullableType`,
  `createUnionFromTypes`, `handleSingleType`, `parseString`, `parseArray`,
  `parseObject`, `parseCombinator`, `parseOneOf`, `parseAnyOf`,
  `parseAllOf`, `mergeSchemas`, `convert`).  The source methods recurse
  through `this.parseSchema`; each embedded helper therefore takes the
  recursive entry point as an explicit `rec` argument, and `parseSchema`
  ties the knot with a fuel parameter (the standard device for embedding
  unbounded recursion; every theorem either quantifies over the fuel or
  uses a concrete fuel large enough for the schema at hand).

String `format` refinements (email, date-time, uri, uuid, date) are
delegated by the compiler to the zod runtime; their value-level semantics
are abstracted as an oracle `F : Fmt → String → Bool` that `validate`
threads through.
-/

/-- A JSON runtime value.  Numbers are modelled as rationals so that the
`integer` / `number` distinction (zod `.int()`, i.e. JS `Number.isInteger`)
is expressible. -/
inductive JSON where
  | null
  | bool (b : Bool)
  | num (q : Rat)
  | str (s : String)
  | arr (elems : List JSON)
  | obj (fields : List (String × JSON))

/-- A literal permitted by the `enum` keyword: the source declares
`enum?: (string | number)[]`. -/
inductive Prim where
  | str (s : String)
  | num (q : Rat)
deriving DecidableEq

/-- The five `format` tags the compiler recognizes in `parseString`. -/
inductive Fmt where
  | email
  | datetime
  | uri
  | uuid
  | date
deriving DecidableEq

/-- zod v3 `UnknownKeysParam` for `ZodObject`: the policy used for keys
outside the declared shape when no catchall is installed. -/
inductive UnknownKeys where
  | strip
  | strict
  | passthrough
deriving DecidableEq

/-- The validator graphs constructed by the compiler (a fragment of zod v3).
`object` carries the declared shape, the `unknownKeys` policy and the
optional catchall, exactly as `ZodObject`'s definition does.
`refineEnum` is `.refine(val => enum.includes(val), { message })`, the one
refinement the compiler ever builds. -/
inductive Zod where
  | any
  | str (fmt : Option Fmt)
  | number (isInt : Bool)
  | boolean
  | null
  | nullable (inner : Zod)
  | optional (inner : Zod)
  | union (options : List Zod)
  | array (elem : Zod)
  | object (shape : List (String × Zod)) (unknownKeys : UnknownKeys) (catchall : Option Zod)
  | refineEnum (base : Zod) (vals : List Prim) (msg : String)

/-- JS `enum.includes(val)` with strict equality: a string only ever equals
a string entry and a number only a number entry. -/
def memEnum (v : JSON) (vals : List Prim) : Bool :=
  match v with
  | .str s => vals.contains (.str s)
  | .num q => vals.contains (.num q)
  | _ => false

/-- Run the format oracle; a string validator with no format refinement
accepts every string. -/
def fmtOk (F : Fmt → String → Bool) : Option Fmt → String → Bool
  | none, _ => true
  | some f, s => F f s

mutual

/-- Does a zod validator accept the JS value `undefined`?  Used by the
object semantics for declared keys absent from the input.  In zod, parsing
`undefined` succeeds exactly for `ZodOptional` and `ZodAny` (among the
validators this compiler builds), for `ZodNullable` over such a validator,
and for a union with such a branch; the parse result is then `undefined`,
so the key is omitted from the output object.  `refineEnum` rejects
`undefined` because `enum.includes(undefined)` is false for a
`(string | number)[]` enum list. -/
def acceptsUndef : Zod → Bool
  | .any => true
  | .optional _ => true
  | .nullable z => acceptsUndef z
  | .union zs => acceptsUndefList zs
  | _ => false
termination_by z => (sizeOf z, 0)

/-- `acceptsUndef` over the branches of a union. -/
def acceptsUndefList : List Zod → Bool
  | [] => false
  | z :: zs => acceptsUndef z || acceptsUndefList zs
termination_by zs => (sizeOf zs, 0)

end

mutual

/-- zod v3 parse semantics for the validator fragment the compiler
constructs: `validate F z v = some out` means `z.parse(v)` succeeds with
output `out`; `none` means a `ZodError` is thrown. -/
def validate (F : Fmt → String → Bool) : Zod → JSON → Option JSON
  | .any, v => some v
  | .str fmt, v =>
    match v with
    | .str s => if fmtOk F fmt s then some (.str s) else none
    | _ => none
  | .number isInt, v =>
    match v with
    | .num q => if isInt then (if q.den = 1 then some (.num q) else none) else some (.num q)
    | _ => none
  | .boolean, v =>
    match v with
    | .bool b => some (.bool b)
    | _ => none
  | .null, v =>
    match v with
    | .null => some .null
    | _ => none
  | .nullable z, v =>
    match v with
    | .null => some .null
    | _ => validate F z v
  | .optional z, v => validate F z v
  | .union zs, v => validateFirst F zs v
  | .array z, v =>
    match v with
    | .arr xs => (validateElems F z xs).map JSON.arr
    | _ => none
  | .object shape uk catchall, v =>
    match v with
    | .obj fields => validateObj F shape uk catchall fields
    | _ => none
  | .refineEnum base vals _, v =>
    (validate F base v).bind (fun out => if memEnum out vals then some out else none)
termination_by z _ => (sizeOf z, 0, 0)

/-- `ZodUnion._parse`: return the first branch that parses successfully. -/
def validateFirst (F : Fmt → String → Bool) : List Zod → JSON → Option JSON
  | [], _ => none
  | z :: zs, v =>
    match validate F z v with
    | some out => some out
    | none => validateFirst F zs v
termination_by zs _ => (sizeOf zs, 0, 0)

/-- `ZodArray._parse`: every element must parse; outputs are collected in
order. -/
def validateElems (F : Fmt → String → Bool) (z : Zod) : List JSON → Option (List JSON)
  | [] => some []
  | x :: xs => do
    let y ← validate F z x
    let ys ← validateElems F z xs
    pure (y :: ys)
termination_by xs => (sizeOf z, 1, sizeOf xs)

/-- The declared-shape pass of `ZodObject._parse`: each declared key that
is present must parse (its output is recorded); a declared key that is
absent is accepted iff its validator accepts `undefined`, in which case it
is omitted from the output. -/
def validateShape (F : Fmt → String → Bool) (fields : List (String × JSON)) :
    List (String × Zod) → Option (List (String × JSON))
  | [] => some []
  | (k, zk) :: rest =>
    match fields.lookup k with
    | some val => do
      let out ← validate F zk val
      let tail ← validateShape F fields rest
      pure ((k, out) :: tail)
    | none =>
      if acceptsUndef zk then validateShape F fields rest else none
termination_by shape => (sizeOf shape, 0, 0)

/-- The catchall pass of `ZodObject._parse`: every unknown key must parse
against the catchall validator and the outputs are kept. -/
def validateExtras (F : Fmt → String → Bool) (c : Zod) :
    List (String × JSON) → Option (List (String × JSON))
  | [] => some []
  | (k, v) :: rest => do
    let out ← validate F c v
    let tail ← validateExtras F c rest
    pure ((k, out) :: tail)
termination_by extras => (sizeOf c, 1, sizeOf extras)

/-- `ZodObject._parse` on an object input: run the declared shape, then
handle unknown keys.  A non-`never` catchall takes precedence over the
`unknownKeys` policy (zod consults the policy only when the catchall is
`ZodNever`); with a catchall, unknown keys are parsed against it and the
results are included in the output after the declared keys. -/
def validateObj (F : Fmt → String → Bool) (shape : List (String × Zod))
    (uk : UnknownKeys) (catchall : Option Zod)
    (fields : List (String × JSON)) : Option JSON := do
  let shapeKeys := shape.map Prod.fst
  let extras := fields.filter (fun kv => !(shapeKeys.contains kv.1))
  let shapeOut ← validateShape F fields shape
  let extrasOut ←
    match catchall with
    | none =>
      match uk with
      | .strip => some []
      | .passthrough => some extras
      | .strict => if extras.isEmpty then some [] else none
    | some c => validateExtras F c extras
  pure (.obj (shapeOut ++ extrasOut))
termination_by (sizeOf shape + sizeOf catchall, 2, 0)
decreasing_by
  · simp_wf
    apply Prod.Lex.left
    cases catchall <;> simp
  · simp_wf
    apply Prod.Lex.left
    omega

end

/-! ## Schema nodes (`JSONSchema` in `src/Type.ts`) -/

/-- The `type` keyword: a single tag or an ordered sequence of tags. -/
inductive TypeF where
  | single (tag : String)
  | list (tags : List String)
deriving DecidableEq

/-- The `JSONSchema` record.  A field holding `none` models the absence of
the key on the JS object (the `[key: string]: any` catch-all keys are
preserved opaquely by the compiler and are irrelevant to it, so they are
not modelled). -/
inductive Schema where
  | mk
    (type : Option TypeF)
    (properties : Option (List (String × Schema)))
    (items : Option (Sum Schema (List Schema)))
    (required : Option (List String))
    (enum : Option (List Prim))
    (format : Option String)
    (oneOf : Option (List Schema))
    (anyOf : Option (List Schema))
    (allOf : Option (List Schema))
    (additionalProperties : Option (Sum Bool Schema))

def Schema.type : Schema → Option TypeF
  | .mk t _ _ _ _ _ _ _ _ _ => t

def Schema.properties : Schema → Option (List (String × Schema))
  | .mk _ p _ _ _ _ _ _ _ _ => p

def Schema.items : Schema → Option (Sum Schema (List Schema))
  | .mk _ _ i _ _ _ _ _ _ _ => i

def Schema.required : Schema → Option (List String)
  | .mk _ _ _ r _ _ _ _ _ _ => r

def Schema.enum : Schema → Option (List Prim)
  | .mk _ _ _ _ e _ _ _ _ _ => e

def Schema.format : Schema → Option String
  | .mk _ _ _ _ _ f _ _ _ _ => f

def Schema.oneOf : Schema → Option (List Schema)
  | .mk _ _ _ _ _ _ o _ _ _ => o

def Schema.anyOf : Schema → Option (List Schema)
  | .mk _ _ _ _ _ _ _ a _ _ => a

def Schema.allOf : Schema → Option (List Schema)
  | .mk _ _ _ _ _ _ _ _ l _ => l

def Schema.additionalProperties : Schema → Option (Sum Bool Schema)
  | .mk _ _ _ _ _ _ _ _ _ d => d

/-- The schema object literal `{}`. -/
def Schema.empty : Schema := .mk none none none none none none none none none none

/-- `{ ...schema, type: t }`: copy with the `type` key replaced. -/
def Schema.withType : Schema → Option TypeF → Schema
  | .mk _ p i r e f o a l d, t => .mk t p i r e f o a l d

def Schema.withProperties : Schema → Option (List (String × Schema)) → Schema
  | .mk t _ i r e f o a l d, p => .mk t p i r e f o a l d

def Schema.withItems : Schema → Option (Sum Schema (List Schema)) → Schema
  | .mk t p _ r e f o a l d, i => .mk t p i r e f o a l d

def Schema.withRequired : Schema → Option (List String) → Schema
  | .mk t p i _ e f o a l d, r => .mk t p i r e f o a l d

def Schema.withEnum : Schema → Option (List Prim) → Schema
  | .mk t p i r _ f o a l d, e => .mk t p i r e f o a l d

def Schema.withFormat : Schema → Option String → Schema
  | .mk t p i r e _ o a l d, f => .mk t p i r e f o a l d

def Schema.withOneOf : Schema → Option (List Schema) → Schema
  | .mk t p i r e f _ a l d, o => .mk t p i r e f o a l d

def Schema.withAnyOf : Schema → Option (List Schema) → Schema
  | .mk t p i r e f o _ l d, a => .mk t p i r e f o a l d

def Schema.withAllOf : Schema → Option (List Schema) → Schema
  | .mk t p i r e f o a _ d, l => .mk t p i r e f o a l d

def Schema.withAdditionalProperties : Schema → Option (Sum Bool Schema) → Schema
  | .mk t p i r e f o a l _, d => .mk t p i r e f o a l d

/-! ## The merge utility (`mergeSchemas`) -/

/-- The JS object spread `{ ...baseSchema, ...addSchema }` restricted to
the modelled keys: a key present on `addSchema` overwrites the base key,
an absent key leaves the base key in place. -/
def jsSpread : Schema → Schema → Schema
  | .mk t1 p1 i1 r1 e1 f1 o1 a1 l1 d1, .mk t2 p2 i2 r2 e2 f2 o2 a2 l2 d2 =>
    .mk (t2 <|> t1) (p2 <|> p1) (i2 <|> i1) (r2 <|> r1) (e2 <|> e1)
      (f2 <|> f1) (o2 <|> o1) (a2 <|> a1) (l2 <|> l1) (d2 <|> d1)

/-- The JS object spread `{ ...bp, ...ap }` on two `properties` records:
keys of `bp` first (in order, with values overridden by `ap` where the key
is shared), then the keys only in `ap` (in order). -/
def spreadProps (bp ap : List (String × Schema)) : List (String × Schema) :=
  bp.map (fun kv => (kv.1, (ap.lookup kv.1).getD kv.2)) ++
    ap.filter (fun kv => (bp.lookup kv.1).isNone)

/-- `Array.from(new Set([...br, ...ar]))`: deduplication keeping the first
occurrence of each element, in insertion order. -/
def jsSetDedup : List String → List String
  | [] => []
  | x :: xs => x :: (jsSetDedup xs).filter (fun y => y ≠ x)

/-- Mirrors `JSONSchemaToZod.mergeSchemas`: shallow spread of all
top-level keys, then—when both sides define them—the key-wise union of
`properties` and the deduplicated union of `required`. -/
def mergeSchemas (baseSchema addSchema : Schema) : Schema :=
  let merged : Schema := jsSpread baseSchema addSchema
  let merged : Schema :=
    match baseSchema.properties, addSchema.properties with
    | some bp, some ap => merged.withProperties (some (spreadProps bp ap))
    | _, _ => merged
  match baseSchema.required, addSchema.required with
  | some br, some ar => merged.withRequired (some (jsSetDedup (br ++ ar)))
  | _, _ => merged

/-! ## The compiler (`JSONSchemaToZod`)

Each method of the class takes the recursive entry point
`this.parseSchema` as the explicit argument `rec`; `parseSchema` itself
ties the knot with a fuel parameter. -/

/-- `schema.format` switch inside `parseString`: the five recognized tags
select a zod string refinement, any other value falls through the
`default` branch and is ignored. -/
def fmtOfFormat : Option String → Option Fmt
  | some "email" => some .email
  | some "date-time" => some .datetime
  | some "uri" => some .uri
  | some "uuid" => some .uuid
  | some "date" => some .date
  | _ => none

/-- `String(x)` for an enum literal, used by `Array.prototype.join`.
Non-integral rationals are rendered with Lean's `Rat` notation, an
approximation of JS decimal notation that no claim depends on. -/
def Prim.jsString : Prim → String
  | .str s => s
  | .num q => if q.den = 1 then toString q.num else toString q

/-- Mirrors `JSONSchemaToZod.parseString`: base `z.string()`, then the
`format` switch, then—when the `enum` key is present—the membership
refinement with its message built by `enum.join(', ')`. -/
def parseString (schema : Schema) : Zod :=
  let zodSchema : Zod := .str (fmtOfFormat schema.format)
  match schema.enum with
  | some vs =>
    .refineEnum zodSchema vs
      ("Value must be one of: " ++ String.intercalate ", " (vs.map Prim.jsString))
  | none => zodSchema

/-- `xs.map(x => compile(x))` under JS exception semantics: the first
thrown construction error aborts the whole map. -/
def mapE {α : Type} (rec : α → Except String Zod) : List α → Except String (List Zod)
  | [] => .ok []
  | s :: ss => do
    let z ← rec s
    let zs ← mapE rec ss
    pure (z :: zs)

/-- Mirrors `JSONSchemaToZod.parseArray`: missing `items` is a
construction error; a sequence of item schemas becomes one union applied
to every element; a single item schema is compiled directly. -/
def parseArray (rec : Schema → Except String Zod) (schema : Schema) : Except String Zod :=
  match schema.items with
  | none => .error "Array schema must have \"items\" defined"
  | some (.inr list) => do
    let zs ← mapE rec list
    pure (.array (.union zs))
  | some (.inl item) => do
    let z ← rec item
    pure (.array z)

/-- `Object.entries(schema.properties || {})` compiled field by field:
required keys keep the child validator, the rest are wrapped `.optional()`. -/
def buildShape (rec : Schema → Except String Zod) (req : List String) :
    List (String × Schema) → Except String (List (String × Zod))
  | [] => .ok []
  | (key, value) :: rest => do
    let zodSchema ← rec value
    let tail ← buildShape rec req rest
    pure ((key, if req.contains key then zodSchema else .optional zodSchema) :: tail)

/-- Mirrors `JSONSchemaToZod.parseObject`: build the shape, then install
the unknown-key handling — `additionalProperties === true` gives
`.catchall(z.any()).strip()`, an `additionalProperties` schema gives
`.catchall(rec(sub)).strip()`, anything else gives `.strict()`. -/
def parseObject (rec : Schema → Except String Zod) (schema : Schema) : Except String Zod := do
  let shape ← buildShape rec (schema.required.getD []) (schema.properties.getD [])
  match schema.additionalProperties with
  | some (.inl true) => pure (.object shape .strip (some .any))
  | some (.inr sub) => do
    let c ← rec sub
    pure (.object shape .strip (some c))
  | _ => pure (.object shape .strict none)

/-- Mirrors `JSONSchemaToZod.parseOneOf`. -/
def parseOneOf (rec : Schema → Except String Zod) (schemas : List Schema) : Except String Zod :=
  match schemas with
  | [s] => rec s
  | _ :: _ :: _ => do
    let zs ← mapE rec schemas
    pure (.union zs)
  | [] => pure .any

/-- The `anyOf` branch map: the literal marker `{ type: 'null' }` becomes
`z.null()` directly instead of being recursively compiled. -/
def anyOfBranches (rec : Schema → Except String Zod) : List Schema → Except String (List Zod)
  | [] => .ok []
  | sub :: rest => do
    let z ← if sub.type = some (.single "null") then pure Zod.null else rec sub
    let zs ← anyOfBranches rec rest
    pure (z :: zs)

/-- Mirrors `JSONSchemaToZod.parseAnyOf`, including the (vacuously dead)
length re-checks the source performs on the collected branch validators. -/
def parseAnyOf (rec : Schema → Except String Zod) (schemas : List Schema) : Except String Zod :=
  match schemas with
  | [s] => rec s
  | _ :: _ :: _ => do
    let zodSchemas ← anyOfBranches rec schemas
    if 2 ≤ zodSchemas.length then pure (.union zodSchemas)
    else
      match zodSchemas with
      | [z] => pure z
      | _ => pure .any
  | [] => pure .any

/-- Mirrors `JSONSchemaToZod.parseAllOf`:
`schemas.slice(1).reduce(mergeSchemas, schemas[0])` is the left fold of
`mergeSchemas`, and only the merged schema is compiled. -/
def parseAllOf (rec : Schema → Except String Zod) (schemas : List Schema) : Except String Zod :=
  match schemas with
  | [] => pure .any
  | baseSchema :: rest => rec (rest.foldl mergeSchemas baseSchema)

/-- Mirrors `JSONSchemaToZod.parseCombinator`: `oneOf`, then `anyOf`, then
`allOf` (presence of the key, even with an empty list, selects the
branch), otherwise the unsupported-type construction error. -/
def parseCombinator (rec : Schema → Except String Zod) (schema : Schema) : Except String Zod :=
  match schema.oneOf with
  | some l => parseOneOf rec l
  | none =>
    match schema.anyOf with
    | some l => parseAnyOf rec l
    | none =>
      match schema.allOf with
      | some l => parseAllOf rec l
      | none => .error "Unsupported schema type"

/-- Mirrors `JSONSchemaToZod.handleSingleType`.  A `type` key holding an
array reaches the JS `switch` matching no case (strict comparison against
the six tag strings) and falls through to `parseCombinator`, exactly like
an unrecognized scalar tag. -/
def handleSingleType (rec : Schema → Except String Zod) (schema : Schema) : Except String Zod :=
  match schema.type with
  | none =>
    if schema.oneOf.isSome || schema.anyOf.isSome || schema.allOf.isSome then
      parseCombinator rec schema
    else if schema.properties.isSome then
      parseObject rec schema
    else
      .ok .any
  | some (.single t) =>
    if t = "string" then .ok (parseString schema)
    else if t = "number" then .ok (.number false)
    else if t = "integer" then .ok (.number true)
    else if t = "boolean" then .ok .boolean
    else if t = "array" then parseArray rec schema
    else if t = "object" then parseObject rec schema
    else parseCombinator rec schema
  | some (.list _) => parseCombinator rec schema

/-- Mirrors `JSONSchemaToZod.handleNullableType`: copy the schema, remove
`'null'` from the type array, collapse a one-element remainder to a scalar
tag, recompile the copy, wrap the result `.nullable()`. -/
def handleNullableType (rec : Schema → Except String Zod) (schema : Schema) : Except String Zod :=
  match schema.type with
  | some (.list ts) =>
    let filtered := ts.filter (fun t => t ≠ "null")
    let nonNullType : TypeF :=
      match filtered with
      | [t] => .single t
      | _ => .list filtered
    (rec (schema.withType (some nonNullType))).map Zod.nullable
  | _ => .error "Expected schema.type to be an array"

/-- Mirrors `JSONSchemaToZod.createUnionFromTypes`: compile a per-tag copy
of the schema for every tag and combine the results with `z.union`. -/
def createUnionFromTypes (rec : Schema → Except String Zod) (types : List String)
    (baseSchema : Schema) : Except String Zod :=
  (mapE (fun t => rec (baseSchema.withType (some (.single t)))) types).map Zod.union

/-- Mirrors `JSONSchemaToZod.handleTypeArray`. -/
def handleTypeArray (rec : Schema → Except String Zod) (schema : Schema) : Except String Zod :=
  match schema.type with
  | some (.list ts) =>
    if ts.contains "null" then handleNullableType rec schema
    else createUnionFromTypes rec ts schema
  | _ => .error "Expected schema.type to be an array"

/-- Mirrors `JSONSchemaToZod.parseSchema`: a type array goes to
`handleTypeArray`, everything else to `handleSingleType`.  The fuel
parameter bounds the recursion depth of the embedding; the source
recursion is unbounded, and every theorem below either quantifies over the
fuel or instantiates it with a value large enough for the schema at hand. -/
def parseSchema : Nat → Schema → Except String Zod
  | 0, _ => .error "Schema nesting exceeds the modelling recursion bound"
  | fuel + 1, schema =>
    match schema.type with
    | some (.list _) => handleTypeArray (parseSchema fuel) schema
    | _ => handleSingleType (parseSchema fuel) schema

/-- Mirrors `JSONSchemaToZod.convert`, the public entry point. -/
def convert (fuel : Nat) (schema : Schema) : Except String Zod :=
  parseSchema fuel schema

/-! ## Concrete schemas and validators used by the claims -/

/-- A format oracle accepting every string, used where a closed statement
needs a concrete oracle and no `format` keyword is involved. -/
def trueOracle : Fmt → String → Bool := fun _ _ => true

/-- Does a JSON object value expose the given key? -/
def jsonHasKey : JSON → String → Bool
  | .obj fields, k => (fields.map Prod.fst).contains k
  | _, _ => false

/-- `{ type: 'string' }` -/
def strSchema : Schema := Schema.empty.withType (some (.single "string"))

/-- `{ type: 'null' }`, the literal marker special-cased by `parseAnyOf`. -/
def nullMarkerSchema : Schema := Schema.empty.withType (some (.single "null"))

/-- `{ type: 'object', properties: { name: { type: 'string' } }, additionalProperties: true }` -/
def c1Schema : Schema :=
  ((Schema.empty.withType (some (.single "object"))).withProperties
      (some [("name", strSchema)])).withAdditionalProperties (some (.inl true))

/-- The validator `convert` builds for `c1Schema`. -/
def c1Zod : Zod := .object [("name", .optional (.str none))] .strip (some .any)

/-- The spec example input `{ name: 'John', age: 30 }`. -/
def c1Input : JSON := .obj [("name", .str "John"), ("age", .num 30)]

/-- `{ type: 'object', properties: { name: ... }, required: ['name'] }` -/
def c2Base : Schema :=
  ((Schema.empty.withType (some (.single "object"))).withProperties
      (some [("name", strSchema)])).withRequired (some ["name"])

/-- `{ properties: { age: { type: 'number' } }, required: ['age'] }` -/
def c2Add : Schema :=
  ((Schema.empty.withProperties
      (some [("age", Schema.empty.withType (some (.single "number")))])).withRequired
    (some ["age"]))

/-- `{ type: ['string', 'null'] }` -/
def c3Schema : Schema := Schema.empty.withType (some (.list ["string", "null"]))

/-- The validator compiled from `c3Schema`: the nullable wrap of the plain
string validator. -/
def c3Zod : Zod := .nullable (.str none)

/-- A schema carrying both a combinator and `properties` at the same
level, exercising the dispatch priority of §4.2. -/
def c4Schema : Schema :=
  (Schema.empty.withOneOf (some [strSchema])).withProperties (some [("name", strSchema)])

/-- `{ anyOf: [ { type: 'string' }, { type: 'null' } ] }` -/
def c5Schema : Schema := Schema.empty.withAnyOf (some [strSchema, nullMarkerSchema])

/-- The validator compiled from `c5Schema`: the null branch is mapped to
`z.null()` directly. -/
def c5Zod : Zod := .union [.str none, .null]

/-- `{ type: 'array' }` with no `items`. -/
def c6Schema : Schema := Schema.empty.withType (some (.single "array"))

/-- `{ type: 'unsupportedType' }` (the repository test's example). -/
def c7Schema : Schema := Schema.empty.withType (some (.single "unsupportedType"))

/-- `{ type: 'array', items: [ { type: 'string' }, { type: 'number' } ] }` -/
def c8Schema : Schema :=
  (Schema.empty.withType (some (.single "array"))).withItems
    (some (.inr [strSchema, Schema.empty.withType (some (.single "number"))]))

/-- `{ type: 'string', enum: ['Alice', 'Bob'] }` -/
def c9Schema : Schema := strSchema.withEnum (some [.str "Alice", .str "Bob"])

/-- `{ type: 'number', enum: [1, 2] }` -/
def c10Schema : Schema :=
  (Schema.empty.withType (some (.single "number"))).withEnum (some [.num 1, .num 2])

/-! ## Runtime semantics lemmas -/

@[simp] theorem option_mbind_some {α β : Type} (a : α) (f : α → Option β) :
    (some a >>= f) = f a := rfl

@[simp] theorem option_mbind_none {α β : Type} (f : α → Option β) :
    ((none : Option α) >>= f) = none := rfl

@[simp] theorem option_pure_def {α : Type} (a : α) : (pure a : Option α) = some a := rfl

@[simp] theorem except_mbind_ok {α β : Type} (a : α) (f : α → Except String β) :
    (Except.ok a >>= f) = f a := rfl

@[simp] theorem except_mbind_error {α β : Type} (e : String) (f : α → Except String β) :
    ((Except.error e : Except String α) >>= f) = Except.error e := rfl

@[simp] theorem except_pure_def {α : Type} (a : α) : (pure a : Except String α) = .ok a := rfl

@[simp] theorem except_map_ok {α β : Type} (f : α → β) (a : α) :
    (Except.ok a : Except String α).map f = .ok (f a) := rfl

@[simp] theorem except_map_error {α β : Type} (f : α → β) (e : String) :
    (Except.error e : Except String α).map f = .error e := rfl

theorem validate_any (F : Fmt → String → Bool) (v : JSON) : validate F .any v = some v := by
  simp [validate]

theorem validateExtras_any (F : Fmt → String → Bool) (l : List (String × JSON)) :
    validateExtras F .any l = some l := by
  induction l with
  | nil => simp [validateExtras]
  | cons kv rest ih =>
    obtain ⟨k, v⟩ := kv
    simp [validateExtras, validate, ih]

/-- A `.strict()`-free object with the `strip` policy and no catchall
returns exactly the declared-shape outputs. -/
theorem validate_object_strip_none (F : Fmt → String → Bool)
    (shape : List (String × Zod)) (fields : List (String × JSON)) :
    validate F (.object shape .strip none) (.obj fields) =
      (validateShape F fields shape).map JSON.obj := by
  simp only [validate, validateObj]
  cases h : validateShape F fields shape <;> simp [h]

/-- With an installed `z.any()` catchall, the parse succeeds exactly when
the declared-shape pass succeeds, and the output is the declared outputs
followed by every unknown key unchanged: `.strip()` does not remove them,
because zod consults the `unknownKeys` policy only when the catchall is
`ZodNever`. -/
theorem validate_object_catchall_any (F : Fmt → String → Bool)
    (shape : List (String × Zod)) (uk : UnknownKeys) (fields : List (String × JSON)) :
    validate F (.object shape uk (some .any)) (.obj fields) =
      (validateShape F fields shape).map (fun outs =>
        .obj (outs ++ fields.filter (fun kv => !((shape.map Prod.fst).contains kv.1)))) := by
  simp only [validate, validateObj]
  cases h : validateShape F fields shape <;>
    simp [h, validateExtras_any]

/-- A union accepts a value iff some branch accepts it. -/
theorem validateFirst_isSome (F : Fmt → String → Bool) (zs : List Zod) (v : JSON) :
    (validateFirst F zs v).isSome ↔ ∃ z ∈ zs, (validate F z v).isSome := by
  induction zs with
  | nil => simp [validateFirst]
  | cons z rest ih =>
    rw [validateFirst]
    cases h : validate F z v with
    | some out => simp [h]
    | none => simp [h, ih]

/-- An array validator accepts a list iff the element validator accepts
every element. -/
theorem validateElems_isSome (F : Fmt → String → Bool) (z : Zod) (xs : List JSON) :
    (validateElems F z xs).isSome ↔ ∀ x ∈ xs, (validate F z x).isSome := by
  induction xs with
  | nil => simp [validateElems]
  | cons x rest ih =>
    rw [validateElems]
    cases h : validate F z x with
    | some out =>
      cases h2 : validateElems F z rest <;> simp_all
    | none => simp [h]

/-- The one refinement the compiler builds: the refined validator accepts
`v` with output `out` iff the base accepts `v` with output `out` and `out`
is a member of the enum list. -/
theorem validate_refineEnum (F : Fmt → String → Bool) (base : Zod) (vals : List Prim)
    (msg : String) (v out : JSON) :
    validate F (.refineEnum base vals msg) v = some out ↔
      (validate F base v = some out ∧ memEnum out vals = true) := by
  rw [validate]
  cases h : validate F base v with
  | none => simp [Option.bind]
  | some w =>
    show (if memEnum w vals = true then some w else none) = some out ↔ _
    by_cases hm : memEnum w vals = true
    · simp only [hm, if_true]
      constructor
      · intro hw
        injection hw with hw
        subst hw
        exact ⟨rfl, hm⟩
      · rintro ⟨hw, _⟩
        injection hw with hw
        rw [hw]
    · simp only [hm, if_false]
      constructor
      · rintro ⟨⟩
      · rintro ⟨hw, hout⟩
        injection hw with hw
        subst hw
        exact absurd hout hm

/-! ## Dispatch lemmas for `parseSchema` -/

theorem parseSchema_single (fuel : Nat) (s : Schema) (t : String)
    (h : s.type = some (.single t)) :
    parseSchema (fuel + 1) s = handleSingleType (parseSchema fuel) s := by
  rw [parseSchema, h]

theorem parseSchema_noType (fuel : Nat) (s : Schema) (h : s.type = none) :
    parseSchema (fuel + 1) s = handleSingleType (parseSchema fuel) s := by
  rw [parseSchema, h]

theorem parseSchema_typeList (fuel : Nat) (s : Schema) (ts : List String)
    (h : s.type = some (.list ts)) :
    parseSchema (fuel + 1) s = handleTypeArray (parseSchema fuel) s := by
  rw [parseSchema, h]

/-! ## Lemmas about the merge utility -/

theorem jsSetDedup_mem (l : List String) (x : String) : x ∈ jsSetDedup l ↔ x ∈ l := by
  induction l with
  | nil => simp [jsSetDedup]
  | cons y ys ih =>
    rw [jsSetDedup]
    by_cases hxy : x = y
    · subst hxy
      simp
    · simp [hxy, List.mem_filter, ih]

theorem jsSetDedup_nodup (l : List String) : (jsSetDedup l).Nodup := by
  induction l with
  | nil => simp [jsSetDedup]
  | cons y ys ih =>
    rw [jsSetDedup]
    refine List.Nodup.cons ?_ (List.Nodup.filter _ ih)
    intro hy
    have := (List.mem_filter.mp hy).2
    simp at this

theorem lookup_append (k : String) (l1 l2 : List (String × Schema)) :
    List.lookup k (l1 ++ l2) = ((List.lookup k l1) <|> (List.lookup k l2)) := by
  induction l1 with
  | nil => simp [List.lookup]
  | cons kv rest ih =>
    obtain ⟨a, b⟩ := kv
    rw [List.cons_append, List.lookup, List.lookup]
    cases h : k == a <;> simp [h, ih]

theorem lookup_map_override (k : String) (bp ap : List (String × Schema)) :
    List.lookup k (bp.map (fun kv => (kv.1, (List.lookup kv.1 ap).getD kv.2))) =
      (List.lookup k bp).map (fun v => (List.lookup k ap).getD v) := by
  induction bp with
  | nil => simp [List.lookup]
  | cons kv rest ih =>
    obtain ⟨a, b⟩ := kv
    rw [List.map_cons, List.lookup, List.lookup]
    cases hk : k == a with
    | false => simp [ih]
    | true =>
      have : k = a := by simpa using hk
      subst this
      simp

theorem lookup_filter_unseen (k : String) (ap bp : List (String × Schema))
    (hbp : List.lookup k bp = none) :
    List.lookup k (ap.filter (fun kv => (List.lookup kv.1 bp).isNone)) =
      List.lookup k ap := by
  induction ap with
  | nil => simp
  | cons kv rest ih =>
    obtain ⟨a, b⟩ := kv
    by_cases hk : k = a
    · subst hk
      have : (List.lookup k bp).isNone = true := by simp [hbp]
      simp [List.filter_cons, this, List.lookup]
    · have hkk : (k == a) = false := by simpa using hk
      rw [List.filter_cons]
      cases hkeep : (List.lookup a bp).isNone <;>
        simp [hkeep, List.lookup, hkk, ih]

/-- The key-wise content of the `properties` spread: the additional node's
definition wins on shared names, the base definition survives otherwise. -/
theorem spreadProps_lookup (bp ap : List (String × Schema)) (k : String) :
    List.lookup k (spreadProps bp ap) = ((List.lookup k ap) <|> (List.lookup k bp)) := by
  rw [spreadProps, lookup_append, lookup_map_override k bp ap]
  cases hb : List.lookup k bp with
  | none =>
    rw [lookup_filter_unseen k ap bp hb]
    cases ha : List.lookup k ap <;> simp
  | some v =>
    cases ha : List.lookup k ap <;> simp

/-! ## Claims -/

/-- C3: for every schema whose `type` is an array of tags containing
`'null'`, compiling equals compiling a copy of the same schema whose
`type` is the array with `'null'` removed (collapsed to a scalar tag when
exactly one non-null tag remains), all other keywords carried over
unchanged, and wrapping the result so it additionally accepts `null`;
`{type:['string','null']}` accepts `"x"` and `null`, rejects `123` and
`true`. -/
theorem c3_nullable_type_array :
    (∀ (fuel : Nat) (s : Schema) (ts : List String),
        s.type = some (.list ts) → ts.contains "null" = true →
        parseSchema (fuel + 1) s =
          (parseSchema fuel (s.withType (some
            (match ts.filter (fun t => t ≠ "null") with
              | [t] => TypeF.single t
              | l => TypeF.list l)))).map Zod.nullable)
  ∧ convert 5 c3Schema = .ok c3Zod
  ∧ (∀ F : Fmt → String → Bool,
      validate F c3Zod (.str "x") = some (.str "x")
      ∧ validate F c3Zod .null = some .null
      ∧ validate F c3Zod (.num 123) = none
      ∧ validate F c3Zod (.bool true) = none) := by
  refine ⟨?_, rfl, ?_⟩
  · intro fuel s ts h hnull
    rw [parseSchema_typeList fuel s ts h]
    simp only [handleTypeArray, h, hnull, if_true, handleNullableType]
    cases hf : ts.filter (fun t => t ≠ "null") with
    | nil => simp [hf]
    | cons a tail =>
      cases tail with
      | nil => simp [hf]
      | cons b tail2 => simp [hf]
  · intro F
    refine ⟨?_, ?_, ?_, ?_⟩ <;> simp [c3Zod, validate, fmtOk]

/-- Witness for C3 at the spec's own example `{type:['string','null']}`. -/
theorem c3_nullable_type_array_witness :
    parseSchema 2 c3Schema =
      (parseSchema 1 (c3Schema.withType (some (.single "string")))).map Zod.nullable :=
  c3_nullable_type_array.1 1 c3Schema ["string", "null"] rfl rfl

/-- C4: for every schema with no `type` key, dispatch prefers the
composite builder when any of `oneOf`/`anyOf`/`allOf` is present (even if
`properties` is also present), else the object builder when `properties`
is present, else the accept-any validator, which accepts every runtime
value. -/
theorem c4_no_type_dispatch (fuel : Nat) (s : Schema) (h : s.type = none) :
    parseSchema (fuel + 1) s =
      (if s.oneOf.isSome || s.anyOf.isSome || s.allOf.isSome then
        parseCombinator (parseSchema fuel) s
      else if s.properties.isSome then
        parseObject (parseSchema fuel) s
      else
        .ok .any)
  ∧ (∀ (F : Fmt → String → Bool) (v : JSON), validate F .any v = some v) := by
  refine ⟨?_, fun F v => validate_any F v⟩
  rw [parseSchema_noType fuel s h]
  simp [handleSingleType, h]

/-- Witness for C4 at a schema carrying both `oneOf` and `properties`:
the composite branch wins. -/
theorem c4_no_type_dispatch_witness :
    c4Schema.type = none ∧
    (parseSchema 2 c4Schema =
        (if c4Schema.oneOf.isSome || c4Schema.anyOf.isSome || c4Schema.allOf.isSome then
          parseCombinator (parseSchema 1) c4Schema
        else if c4Schema.properties.isSome then
          parseObject (parseSchema 1) c4Schema
        else
          .ok .any)
      ∧ (∀ (F : Fmt → String → Bool) (v : JSON), validate F .any v = some v)) :=
  ⟨rfl, c4_no_type_dispatch 1 c4Schema rfl⟩

/-- C6: every schema of type `'array'` without an `items` key raises the
construction error `Array schema must have "items" defined` and produces
no validator at all. -/
theorem c6_array_without_items_errors (fuel : Nat) (s : Schema)
    (ht : s.type = some (.single "array")) (hi : s.items = none) :
    parseSchema (fuel + 1) s = .error "Array schema must have \"items\" defined" ∧
    ∀ z : Zod, parseSchema (fuel + 1) s ≠ .ok z := by
  have herr : parseSchema (fuel + 1) s = .error "Array schema must have \"items\" defined" := by
    rw [parseSchema_single fuel s _ ht]
    simp [handleSingleType, ht, parseArray, hi]
  refine ⟨herr, fun z hz => ?_⟩
  rw [herr] at hz
  exact Except.noConfusion hz

/-- Witness for C6 at `{type:'array'}`. -/
theorem c6_array_without_items_errors_witness :
    parseSchema 1 c6Schema = .error "Array schema must have \"items\" defined" ∧
    ∀ z : Zod, parseSchema 1 c6Schema ≠ .ok z :=
  c6_array_without_items_errors 0 c6Schema rfl rfl

/-- C7: every schema whose `type` is a scalar tag outside the six
recognized ones, with no `oneOf`/`anyOf`/`allOf`, fails with the
`Unsupported schema type` construction error and returns no validator. -/
theorem c7_unsupported_type_errors (fuel : Nat) (s : Schema) (t : String)
    (ht : s.type = some (.single t))
    (hn : t ∉ (["string", "number", "integer", "boolean", "array", "object"] : List String))
    (h1 : s.oneOf = none) (h2 : s.anyOf = none) (h3 : s.allOf = none) :
    parseSchema (fuel + 1) s = .error "Unsupported schema type" ∧
    ∀ z : Zod, parseSchema (fuel + 1) s ≠ .ok z := by
  simp only [List.mem_cons, List.mem_singleton, not_or] at hn
  obtain ⟨n1, n2, n3, n4, n5, n6⟩ := hn
  have herr : parseSchema (fuel + 1) s = .error "Unsupported schema type" := by
    rw [parseSchema_single fuel s _ ht]
    simp [handleSingleType, ht, n1, n2, n3, n4, n5, n6, parseCombinator, h1, h2, h3]
  refine ⟨herr, fun z hz => ?_⟩
  rw [herr] at hz
  exact Except.noConfusion hz

/-- Witness for C7 at the repository test's `{type:'unsupportedType'}`. -/
theorem c7_unsupported_type_errors_witness :
    parseSchema 1 c7Schema = .error "Unsupported schema type" ∧
    ∀ z : Zod, parseSchema 1 c7Schema ≠ .ok z :=
  c7_unsupported_type_errors 0 c7Schema "unsupportedType" rfl (by decide) rfl rfl rfl

/-- C10: the `number`, `integer` and `boolean` paths never consult `enum`:
the compiled validators are the bare primitive validators, which accept
every value of the corresponding JSON type; in particular
`{type:'number', enum:[1,2]}` compiles to the bare number validator and
accepts `3`. -/
theorem c10_primitive_enum_ignored :
    (∀ (fuel : Nat) (s : Schema), s.type = some (.single "number") →
        parseSchema (fuel + 1) s = .ok (.number false))
  ∧ (∀ (fuel : Nat) (s : Schema), s.type = some (.single "integer") →
        parseSchema (fuel + 1) s = .ok (.number true))
  ∧ (∀ (fuel : Nat) (s : Schema), s.type = some (.single "boolean") →
        parseSchema (fuel + 1) s = .ok .boolean)
  ∧ (∀ (F : Fmt → String → Bool) (q : Rat), validate F (.number false) (.num q) = some (.num q))
  ∧ (∀ (F : Fmt → String → Bool) (q : Rat), q.den = 1 →
        validate F (.number true) (.num q) = some (.num q))
  ∧ (∀ (F : Fmt → String → Bool) (b : Bool), validate F .boolean (.bool b) = some (.bool b))
  ∧ convert 5 c10Schema = .ok (.number false)
  ∧ memEnum (.num 3) [.num 1, .num 2] = false
  ∧ (∀ F : Fmt → String → Bool, validate F (.number false) (.num 3) = some (.num 3)) := by
  refine ⟨?_, ?_, ?_, ?_, ?_, ?_, rfl, by decide, ?_⟩
  · intro fuel s h
    rw [parseSchema_single fuel s _ h]
    simp [handleSingleType, h]
  · intro fuel s h
    rw [parseSchema_single fuel s _ h]
    simp [handleSingleType, h]
  · intro fuel s h
    rw [parseSchema_single fuel s _ h]
    simp [handleSingleType, h]
  · intro F q
    simp [validate]
  · intro F q hq
    simp [validate, hq]
  · intro F b
    simp [validate]
  · intro F
    simp [validate]

/-- Witness for C10: the integer path at a concrete integral input. -/
theorem c10_primitive_enum_ignored_witness :
    parseSchema 1 (Schema.empty.withType (some (.single "integer"))) = .ok (.number true) ∧
    validate trueOracle (.number true) (.num 2) = some (.num 2) :=
  ⟨c10_primitive_enum_ignored.2.1 0 (Schema.empty.withType (some (.single "integer"))) rfl,
    c10_primitive_enum_ignored.2.2.2.2.1 trueOracle 2 rfl⟩

/-- C5: `parseAnyOf` scans each branch for the literal `{type:'null'}`
marker and maps it to the direct null validator instead of recursive
compilation (which would abort with `Unsupported schema type`); the
remaining branches are compiled recursively and combined as a choice, and
`{anyOf:[{type:'string'},{type:'null'}]}` accepts and rejects exactly the
same values as the compiled `{type:['string','null']}` form. -/
theorem c5_anyof_null_marker :
    (∀ (rec : Schema → Except String Zod) (subs : List Schema),
        anyOfBranches rec subs =
          mapE (fun sub =>
            if sub.type = some (.single "null") then pure Zod.null else rec sub) subs)
  ∧ (∀ fuel : Nat, parseSchema (fuel + 1) nullMarkerSchema = .error "Unsupported schema type")
  ∧ convert 5 c5Schema = .ok c5Zod
  ∧ convert 5 c3Schema = .ok c3Zod
  ∧ (∀ (F : Fmt → String → Bool) (v : JSON),
      (validate F c5Zod v).isSome = (validate F c3Zod v).isSome) := by
  refine ⟨?_, ?_, rfl, rfl, ?_⟩
  · intro rec subs
    induction subs with
    | nil => rfl
    | cons sub rest ih =>
      by_cases hc : sub.type = some (TypeF.single "null") <;>
        simp [anyOfBranches, mapE, ih, hc]
  · intro fuel
    rw [parseSchema]
    rfl
  · intro F v
    cases v <;> simp [c5Zod, c3Zod, validate, validateFirst, fmtOk]

/-- Witness for C5 at the two-branch `anyOf` of the spec example. -/
theorem c5_anyof_null_marker_witness :
    anyOfBranches (parseSchema 1) [strSchema, nullMarkerSchema] =
      mapE (fun sub =>
        if sub.type = some (.single "null") then pure Zod.null else parseSchema 1 sub)
        [strSchema, nullMarkerSchema] :=
  c5_anyof_null_marker.1 (parseSchema 1) [strSchema, nullMarkerSchema]

/-- C8: an `items` sequence is compiled to one union over all its members,
and the array validator applies that same union to every element
regardless of index: an array is accepted exactly when each element
matches at least one of the positional schemas. -/
theorem c8_items_sequence_uniform_union :
    (∀ (rec : Schema → Except String Zod) (s : Schema) (list : List Schema),
        s.items = some (.inr list) →
        parseArray rec s = (mapE rec list) >>= (fun zs => pure (.array (.union zs))))
  ∧ (∀ (fuel : Nat) (s : Schema), s.type = some (.single "array") →
        parseSchema (fuel + 1) s = parseArray (parseSchema fuel) s)
  ∧ (∀ (F : Fmt → String → Bool) (zs : List Zod) (xs : List JSON),
        (validate F (.array (.union zs)) (.arr xs)).isSome ↔
          ∀ x ∈ xs, ∃ z ∈ zs, (validate F z x).isSome)
  ∧ convert 5 c8Schema = .ok (.array (.union [.str none, .number false])) := by
  refine ⟨?_, ?_, ?_, rfl⟩
  · intro rec s list h
    simp [parseArray, h]
  · intro fuel s h
    rw [parseSchema_single fuel s _ h]
    simp [handleSingleType, h]
  · intro F zs xs
    rw [validate]
    have hmap : (Option.map JSON.arr (validateElems F (Zod.union zs) xs)).isSome =
        (validateElems F (Zod.union zs) xs).isSome := by
      cases validateElems F (Zod.union zs) xs <;> rfl
    rw [hmap, validateElems_isSome]
    constructor
    · intro hall x hx
      have := hall x hx
      rw [validate, validateFirst_isSome] at this
      exact this
    · intro hall x hx
      rw [validate, validateFirst_isSome]
      exact hall x hx

/-- Witness for C8 at `{type:'array', items:[{type:'string'},{type:'number'}]}`. -/
theorem c8_items_sequence_uniform_union_witness :
    parseArray (parseSchema 1) c8Schema =
      (mapE (parseSchema 1) [strSchema, Schema.empty.withType (some (.single "number"))]) >>=
        (fun zs => pure (.array (.union zs))) :=
  c8_items_sequence_uniform_union.1 (parseSchema 1) c8Schema _ rfl

/-- C9: a string schema with an `enum` list compiles to the base string
validator (format refinement included) refined to membership in the enum
list, with the rejection message `Value must be one of: ` followed by the
comma-joined enum values in original order; `{type:'string',
enum:['Alice','Bob']}` accepts `"Alice"` and rejects `"Charlie"`. -/
theorem c9_string_enum_refinement :
    (∀ (fuel : Nat) (s : Schema), s.type = some (.single "string") →
        parseSchema (fuel + 1) s = .ok (parseString s))
  ∧ (∀ (s : Schema) (vs : List Prim), s.enum = some vs →
      parseString s = .refineEnum (.str (fmtOfFormat s.format)) vs
        ("Value must be one of: " ++ String.intercalate ", " (vs.map Prim.jsString))
      ∧ ∀ (F : Fmt → String → Bool) (v out : JSON),
          validate F (parseString s) v = some out ↔
            (validate F (.str (fmtOfFormat s.format)) v = some out ∧ memEnum out vs = true))
  ∧ parseString c9Schema =
      .refineEnum (.str none) [.str "Alice", .str "Bob"] "Value must be one of: Alice, Bob"
  ∧ (∀ F : Fmt → String → Bool,
      validate F (parseString c9Schema) (.str "Alice") = some (.str "Alice")
      ∧ validate F (parseString c9Schema) (.str "Charlie") = none) := by
  refine ⟨?_, ?_, rfl, ?_⟩
  · intro fuel s h
    rw [parseSchema_single fuel s _ h]
    simp [handleSingleType, h]
  · intro s vs h
    refine ⟨by simp [parseString, h], fun F v out => ?_⟩
    rw [parseString, h]
    exact validate_refineEnum F _ vs _ v out
  · intro F
    have hbase : validate F (.str none) (.str "Alice") = some (.str "Alice") := by
      simp [validate, fmtOk]
    have hbase2 : validate F (.str none) (.str "Charlie") = some (.str "Charlie") := by
      simp [validate, fmtOk]
    have hmem : memEnum (.str "Alice") [Prim.str "Alice", Prim.str "Bob"] = true := by decide
    have hmem2 : memEnum (.str "Charlie") [Prim.str "Alice", Prim.str "Bob"] = false := by
      decide
    constructor
    · rw [show parseString c9Schema =
          .refineEnum (.str none) [.str "Alice", .str "Bob"] "Value must be one of: Alice, Bob"
          from rfl]
      rw [validate, hbase]
      simp [hmem]
    · rw [show parseString c9Schema =
          .refineEnum (.str none) [.str "Alice", .str "Bob"] "Value must be one of: Alice, Bob"
          from rfl]
      rw [validate, hbase2]
      simp [hmem2]

/-- Witness for C9: the string dispatch and the refinement shape at the
spec example. -/
theorem c9_string_enum_refinement_witness :
    parseSchema 1 c9Schema = .ok (parseString c9Schema) ∧
    (parseString c9Schema =
        .refineEnum (.str (fmtOfFormat c9Schema.format)) [.str "Alice", .str "Bob"]
          ("Value must be one of: " ++
            String.intercalate ", " ([Prim.str "Alice", Prim.str "Bob"].map Prim.jsString)) ∧
      ∀ (F : Fmt → String → Bool) (v out : JSON),
        validate F (parseString c9Schema) v = some out ↔
          (validate F (.str (fmtOfFormat c9Schema.format)) v = some out ∧
            memEnum out [Prim.str "Alice", Prim.str "Bob"] = true)) :=
  ⟨c9_string_enum_refinement.1 0 c9Schema rfl,
    c9_string_enum_refinement.2.1 c9Schema [Prim.str "Alice", Prim.str "Bob"] rfl⟩

/-- C2: `parseAllOf` on a nonempty sequence compiles exactly the left fold
of `mergeSchemas`, whose merge shallow-spreads every top-level key with
the additional node's keys overwriting the base's, except that when both
define `properties` the merge is their shallow key-wise union (additional
definitions overwriting same-named base definitions, no recursive merge)
and when both define `required` the merge is their deduplicated union. -/
theorem c2_allof_left_fold_merge :
    (∀ (rec : Schema → Except String Zod) (baseS : Schema) (rest : List Schema),
        parseAllOf rec (baseS :: rest) = rec (rest.foldl mergeSchemas baseS))
  ∧ (∀ b a : Schema,
      (mergeSchemas b a).type = (a.type <|> b.type)
      ∧ (mergeSchemas b a).items = (a.items <|> b.items)
      ∧ (mergeSchemas b a).enum = (a.enum <|> b.enum)
      ∧ (mergeSchemas b a).format = (a.format <|> b.format)
      ∧ (mergeSchemas b a).oneOf = (a.oneOf <|> b.oneOf)
      ∧ (mergeSchemas b a).anyOf = (a.anyOf <|> b.anyOf)
      ∧ (mergeSchemas b a).allOf = (a.allOf <|> b.allOf)
      ∧ (mergeSchemas b a).additionalProperties =
          (a.additionalProperties <|> b.additionalProperties))
  ∧ (∀ (b a : Schema) (bp ap : List (String × Schema)),
      b.properties = some bp → a.properties = some ap →
      (mergeSchemas b a).properties = some (spreadProps bp ap)
      ∧ ∀ k : String, (spreadProps bp ap).lookup k = ((ap.lookup k) <|> (bp.lookup k)))
  ∧ (∀ b a : Schema, b.properties = none ∨ a.properties = none →
      (mergeSchemas b a).properties = (a.properties <|> b.properties))
  ∧ (∀ (b a : Schema) (br ar : List String),
      b.required = some br → a.required = some ar →
      (mergeSchemas b a).required = some (jsSetDedup (br ++ ar))
      ∧ (∀ x : String, x ∈ jsSetDedup (br ++ ar) ↔ x ∈ br ∨ x ∈ ar)
      ∧ (jsSetDedup (br ++ ar)).Nodup)
  ∧ (∀ b a : Schema, b.required = none ∨ a.required = none →
      (mergeSchemas b a).required = (a.required <|> b.required)) := by
  refine ⟨fun rec baseS rest => rfl, ?_, ?_, ?_, ?_, ?_⟩
  · intro b a
    cases b with
    | mk t1 p1 i1 r1 e1 f1 o1 y1 l1 d1 =>
      cases a with
      | mk t2 p2 i2 r2 e2 f2 o2 y2 l2 d2 =>
        cases p1 <;> cases p2 <;> cases r1 <;> cases r2 <;>
          exact ⟨rfl, rfl, rfl, rfl, rfl, rfl, rfl, rfl⟩
  · intro b a bp ap hb ha
    refine ⟨?_, fun k => spreadProps_lookup bp ap k⟩
    cases b with
    | mk t1 p1 i1 r1 e1 f1 o1 y1 l1 d1 =>
      cases a with
      | mk t2 p2 i2 r2 e2 f2 o2 y2 l2 d2 =>
        cases hb
        cases ha
        cases r1 <;> cases r2 <;> rfl
  · intro b a h
    cases b with
    | mk t1 p1 i1 r1 e1 f1 o1 y1 l1 d1 =>
      cases a with
      | mk t2 p2 i2 r2 e2 f2 o2 y2 l2 d2 =>
        rcases h with h | h
        · cases h
          cases p2 <;> cases r1 <;> cases r2 <;> rfl
        · cases h
          cases p1 <;> cases r1 <;> cases r2 <;> rfl
  · intro b a br ar hb ha
    refine ⟨?_, fun x => by simp [jsSetDedup_mem], jsSetDedup_nodup _⟩
    cases b with
    | mk t1 p1 i1 r1 e1 f1 o1 y1 l1 d1 =>
      cases a with
      | mk t2 p2 i2 r2 e2 f2 o2 y2 l2 d2 =>
        cases hb
        cases ha
        cases p1 <;> cases p2 <;> rfl
  · intro b a h
    cases b with
    | mk t1 p1 i1 r1 e1 f1 o1 y1 l1 d1 =>
      cases a with
      | mk t2 p2 i2 r2 e2 f2 o2 y2 l2 d2 =>
        rcases h with h | h
        · cases h
          cases p1 <;> cases p2 <;> cases r2 <;> rfl
        · cases h
          cases p1 <;> cases p2 <;> cases r1 <;> rfl

/-- Witness for C2: merging the spec's two object branches unions the
`required` sets. -/
theorem c2_allof_left_fold_merge_witness :
    (mergeSchemas c2Base c2Add).required = some (jsSetDedup (["name"] ++ ["age"])) ∧
    (∀ x : String, x ∈ jsSetDedup (["name"] ++ ["age"]) ↔ x ∈ ["name"] ∨ x ∈ ["age"]) ∧
    (jsSetDedup (["name"] ++ ["age"])).Nodup :=
  c2_allof_left_fold_merge.2.2.2.2.1 c2Base c2Add ["name"] ["age"] rfl rfl

/-- C1 counterexample: for the spec's own example — properties `{name}`,
`additionalProperties: true`, input `{name:'John', age:30}` — the
validator accepts the input, but the validated output still exposes the
unknown key `age` with its value: the unknown keys are *not* stripped,
because the compiled `.catchall(z.any()).strip()` object gives the
catchall precedence over the strip policy. -/
theorem c1_unknown_key_retained_counterexample :
    convert 5 c1Schema = .ok c1Zod ∧
    validate trueOracle c1Zod c1Input = some (.obj [("name", .str "John"), ("age", .num 30)]) ∧
    jsonHasKey (.obj [("name", .str "John"), ("age", .num 30)]) "age" = true := by
  refine ⟨rfl, ?_, rfl⟩
  simp [c1Zod, c1Input, validate, validateObj, validateShape, validateExtras, fmtOk,
    trueOracle, List.lookup]

/-- C1 as amended: for every object schema (type `'object'`, or inferred
from `properties`) with `additionalProperties` equal to `true`, `convert`
produces `z.object(shape).catchall(z.any()).strip()`; this validator
accepts an object exactly when the declared-shape pass accepts it (unknown
keys never cause rejection), and its validated output is the declared-key
outputs followed by every unknown key *retained unchanged* — not
stripped. -/
theorem c1_additional_true_passthrough (fuel : Nat) (s : Schema) (z : Zod)
    (hroute : s.type = some (.single "object") ∨
      (s.type = none ∧ s.oneOf = none ∧ s.anyOf = none ∧ s.allOf = none ∧
        s.properties.isSome))
    (haddp : s.additionalProperties = some (.inl true))
    (hok : parseSchema (fuel + 1) s = .ok z) :
    ∃ shape : List (String × Zod),
      z = .object shape .strip (some .any) ∧
      ∀ (F : Fmt → String → Bool) (fields : List (String × JSON)),
        validate F z (.obj fields) =
          (validateShape F fields shape).map (fun outs =>
            JSON.obj (outs ++ fields.filter (fun kv => !((shape.map Prod.fst).contains kv.1))))
        ∧ (validate F z (.obj fields)).isSome = (validateShape F fields shape).isSome := by
  have hobj : parseObject (parseSchema fuel) s = .ok z := by
    rcases hroute with h | ⟨h, h1, h2, h3, hp⟩
    · rw [parseSchema_single fuel s _ h] at hok
      simpa [handleSingleType, h] using hok
    · rw [parseSchema_noType fuel s h] at hok
      simpa [handleSingleType, h, h1, h2, h3, hp] using hok
  rw [parseObject] at hobj
  cases hb : buildShape (parseSchema fuel) (s.required.getD []) (s.properties.getD []) with
  | error e =>
    rw [hb] at hobj
    exact absurd hobj (by simp)
  | ok shape =>
    rw [hb] at hobj
    rw [except_mbind_ok, haddp] at hobj
    have hz : z = .object shape .strip (some .any) := by
      have := hobj
      simp at this
      exact this.symm
    refine ⟨shape, hz, fun F fields => ?_⟩
    subst hz
    constructor
    · exact validate_object_catchall_any F shape .strip fields
    · rw [validate_object_catchall_any F shape .strip fields]
      cases validateShape F fields shape <;> rfl

/-- Witness for C1 (amended) at the spec example schema. -/
theorem c1_additional_true_passthrough_witness :
    c1Schema.additionalProperties = some (.inl true) ∧
    parseSchema 5 c1Schema = .ok c1Zod ∧
    (∃ shape : List (String × Zod),
      c1Zod = .object shape .strip (some .any) ∧
      ∀ (F : Fmt → String → Bool) (fields : List (String × JSON)),
        validate F c1Zod (.obj fields) =
          (validateShape F fields shape).map (fun outs =>
            JSON.obj (outs ++ fields.filter (fun kv => !((shape.map Prod.fst).contains kv.1))))
        ∧ (validate F c1Zod (.obj fields)).isSome = (validateShape F fields shape).isSome) :=
  ⟨rfl, rfl, c1_additional_true_passthrough 4 c1Schema c1Zod (Or.inl rfl) rfl rfl⟩
